import Mathlib

/-!
Shallow embedding of the async runtime core in src/crates/fast/src/rt/mod.rs:
the Notify wake/park state machine, the Work execution envelope, the Join and
Select combinators, and the block_on spin driver.

Modelling conventions:
- The atomic state word of Notify is a Nat (EMPTY = 0, WAITING = 1, NOTIFIED = 2);
  the AtomicPtr task slot is an Option Nat (none = null pointer, some t = a
  pointer to the task identified by t).  The observable effect of
  Kind::schedule is recorded in a log field sched : List Nat (a task id is
  appended each time notify hands a task to Kind::schedule).  Claims about the
  Notify protocol concern sequential interleavings, so the atomics are modelled
  as plain state read/written by one step at a time.
- A future is modelled coalgebraically: a poll function on an explicit state
  type, returning the advanced state and Option result (none = Pending,
  some a = Ready a).  Rust polls a future in place through a mutable
  reference; the model threads the state explicitly.
- Rust panics (the unreachable! arm of Work::execute and the
  Option::unwrap in Join::poll) are modelled by returning none from an
  Option-valued function.
-/

namespace FastRt

/-- The Notify wake/park primitive (src/crates/fast/src/rt/mod.rs, struct
Notify): one atomic state word, one single-slot task pointer, plus an
instrumentation log of the tasks handed to Kind::schedule by notify. -/
structure Notify where
  state : Nat
  task : Option Nat
  sched : List Nat
  deriving Repr, DecidableEq

def Notify.EMPTY : Nat := 0
def Notify.WAITING : Nat := 1
def Notify.NOTIFIED : Nat := 2

/-- Notify::new: state EMPTY, null task pointer (AtomicPtr::default), and no
schedule calls made yet. -/
def Notify.new : Notify :=
  { state := Notify.EMPTY, task := none, sched := [] }

/-- Notify::register: store the task pointer into the slot, then
compare_exchange EMPTY -> WAITING on the state word; return whether the
exchange succeeded. -/
def Notify.register (s : Notify) (t : Nat) : Notify × Bool :=
  let s1 := { s with task := some t }
  if s1.state = Notify.EMPTY then
    ({ s1 with state := Notify.WAITING }, true)
  else
    (s1, false)

/-- Notify::notify: swap the state word to NOTIFIED; only when the prior value
was WAITING and the task pointer is non-null, reconstruct the task and hand it
to Kind::schedule (recorded by appending to the sched log). -/
def Notify.notify (s : Notify) : Notify :=
  let prior := s.state
  let s1 := { s with state := Notify.NOTIFIED }
  if prior = Notify.WAITING then
    match s1.task with
    | some t => { s1 with sched := s1.sched ++ [t] }
    | none => s1
  else
    s1

/-- Iterate Notify.notify k times. -/
def notifyN : Nat → Notify → Notify
  | 0, s => s
  | k + 1, s => notifyN k (Notify.notify s)

/-- A sequential interleaving of one register call and n notify calls on a
fresh Notify, with the register placed after the first i notifies: run i
notifies, then register the task, then run the remaining n - i notifies.
Returns the final Notify state and the value register returned. -/
def runInterleaving (t i n : Nat) : Notify × Bool :=
  let s1 := notifyN i Notify.new
  let r := Notify.register s1 t
  (notifyN (n - i) r.1, r.2)

/-- Act (src: enum Act): a task payload, either a deferred call (modelled as a
function on an ambient world γ that invoking the call applies) or a suspendable
future (modelled by its explicit state of type σ; the poll function of the
future is supplied to Work.execute). -/
inductive Act (γ σ : Type) where
  | call (f : γ → γ)
  | fut (st : σ)

/-- Task (src: struct Task): a key paired with an optional Act. -/
structure Task (γ σ : Type) where
  key : Nat
  act : Option (Act γ σ)

/-- Work (src: enum Work): the type-erased execution envelope, a Local or a
Remote task. -/
inductive Work (γ σ : Type) where
  | Local (t : Task γ σ)
  | Remote (t : Task γ σ)

/-- Work::execute.  pollF is the poll function of a Fut payload: it receives
the future state and the key of the freshly minted wake handle for the task
(src: key.waker()), and returns the advanced state plus true when the poll is
Ready.  A Call payload is taken out of its cell and invoked on the world.
Returns none on the unreachable! arm (act = None), otherwise some of the
updated world and the optional returned-for-reexecution Work. -/
def Work.execute {γ σ : Type} (pollF : σ → Nat → σ × Bool) :
    Work γ σ → γ → Option (γ × Option (Work γ σ))
  | Work.Local t, w =>
    match t.act with
    | some (Act.call f) => some (f w, none)
    | some (Act.fut st) =>
      let p := pollF st t.key
      if p.2 then some (w, none)
      else some (w, some (Work.Local { key := t.key, act := some (Act.fut p.1) }))
    | none => none
  | Work.Remote t, w =>
    match t.act with
    | some (Act.call f) => some (f w, none)
    | some (Act.fut st) =>
      let p := pollF st t.key
      if p.2 then some (w, none)
      else some (w, some (Work.Remote { key := t.key, act := some (Act.fut p.1) }))
    | none => none

/-- Status of a coalgebraic future after m polls: either still pending with
the current state (inl), or completed with the result of its first Ready poll
(inr); once Ready, later entries stay inr (the future is not polled again). -/
def futStatus {σ α : Type} (pf : σ → σ × Option α) (s : σ) : Nat → σ ⊕ α
  | 0 => Sum.inl s
  | m + 1 =>
    match futStatus pf s m with
    | Sum.inl s1 =>
      match pf s1 with
      | (s2, none) => Sum.inl s2
      | (_, some a) => Sum.inr a
    | Sum.inr a => Sum.inr a

/-- Which side of a two-future combinator was polled. -/
inductive Side where
  | fst
  | snd
  deriving Repr, DecidableEq

/-- Join (src: struct Join): two sub-future states, per-side done flags and
cached results. -/
structure Join (σ τ α β : Type) where
  first : σ
  second : τ
  first_done : Bool
  second_done : Bool
  first_result : Option α
  second_result : Option β

/-- Join::new. -/
def Join.new {σ τ α β : Type} (s1 : σ) (s2 : τ) : Join σ τ α β :=
  { first := s1, second := s2, first_done := false, second_done := false,
    first_result := none, second_result := none }

/-- Join::poll: poll each not-yet-done side once, left then right, caching a
Ready result; return Ready of both results (taken out of their caches) once
both sides are done, else Pending.  The second component of the output is the
trace of sub-polls performed, in order.  The Option is none exactly when the
Ready branch unwraps a missing cached result (a Rust panic). -/
def Join.poll {σ τ α β : Type} (pf : σ → σ × Option α) (pg : τ → τ × Option β)
    (j : Join σ τ α β) :
    Option (Join σ τ α β × Option (α × β)) × List Side :=
  let r1 :=
    if !j.first_done then
      (match pf j.first with
       | (s1, some a) =>
         { j with first := s1, first_done := true, first_result := some a }
       | (s1, none) => { j with first := s1 },
       [Side.fst])
    else (j, [])
  let j1 := r1.1
  let r2 :=
    if !j1.second_done then
      (match pg j1.second with
       | (s2, some b) =>
         { j1 with second := s2, second_done := true, second_result := some b }
       | (s2, none) => { j1 with second := s2 },
       [Side.snd])
    else (j1, [])
  let j2 := r2.1
  let tr := r1.2 ++ r2.2
  if j2.first_done && j2.second_done then
    match j2.first_result, j2.second_result with
    | some a, some b =>
      (some ({ j2 with first_result := none, second_result := none }, some (a, b)), tr)
    | _, _ => (none, tr)
  else
    (some (j2, none), tr)

/-- Repeatedly poll a Join m times, stopping (absorbing) at the first Ready;
none records a panic inside Join::poll. -/
def joinRun {σ τ α β : Type} (pf : σ → σ × Option α) (pg : τ → τ × Option β)
    (j : Join σ τ α β) : Nat → Option (Join σ τ α β ⊕ α × β)
  | 0 => some (Sum.inl j)
  | m + 1 =>
    match joinRun pf pg j m with
    | some (Sum.inl j1) =>
      match (Join.poll pf pg j1).1 with
      | some (j2, none) => some (Sum.inl j2)
      | some (_, some ab) => some (Sum.inr ab)
      | none => none
    | some (Sum.inr ab) => some (Sum.inr ab)
    | none => none

/-- Either (src: enum Either): tagged result of a Select. -/
inductive Either (α β : Type) where
  | First (a : α)
  | Second (b : β)
  deriving Repr, DecidableEq

/-- Select (src: struct Select): two sub-future states plus one
has-reported-Pending flag per side. -/
structure Select (σ τ : Type) where
  first : σ
  second : τ
  polled_first : Bool
  polled_second : Bool

/-- Select::new: both flags initialized to false. -/
def Select.new {σ τ : Type} (s1 : σ) (s2 : τ) : Select σ τ :=
  { first := s1, second := s2, polled_first := false, polled_second := false }

/-- The tail of Select::poll starting at the second-future branch: try the
second future if its flag is unset (Ready wins immediately; Pending sets the
flag), then reset both flags to false and return Pending.  The net effect of
setting polled_second and then resetting both flags is folded into one record
update. -/
def Select.pollSnd {σ τ α β : Type} (pg : τ → τ × Option β) (s : Select σ τ) :
    Select σ τ × Option (Either α β) × List Side :=
  if !s.polled_second then
    match pg s.second with
    | (t1, some b) => ({ s with second := t1 }, some (Either.Second b), [Side.snd])
    | (t1, none) =>
      ({ s with second := t1, polled_first := false, polled_second := false },
       none, [Side.snd])
  else
    ({ s with polled_first := false, polled_second := false }, none, [])

/-- Select::poll: try the first future if its flag is unset (Ready returns
First immediately; Pending sets the flag and falls through), then the second;
if neither was Ready, reset both flags and return Pending.  Also returns the
trace of sub-polls performed, in order. -/
def Select.poll {σ τ α β : Type} (pf : σ → σ × Option α) (pg : τ → τ × Option β)
    (s : Select σ τ) : Select σ τ × Option (Either α β) × List Side :=
  if !s.polled_first then
    match pf s.first with
    | (s1, some a) => ({ s with first := s1 }, some (Either.First a), [Side.fst])
    | (s1, none) =>
      let r := Select.pollSnd pg { s with first := s1, polled_first := true }
      (r.1, r.2.1, Side.fst :: r.2.2)
  else
    Select.pollSnd pg s

/-- The wake-handle vtable (src: RawWakerVTable), modelled by the observable
effect of its wake and wake_by_ref entries on an ambient world γ. -/
structure RawWakerVTable (γ : Type) where
  wake : γ → γ
  wake_by_ref : γ → γ

/-- BLOCK_ON_VTABLE: both wake entries are no-ops. -/
def BLOCK_ON_VTABLE (γ : Type) : RawWakerVTable γ :=
  { wake := fun w => w, wake_by_ref := fun w => w }

/-- block_on: repeatedly poll the future against the BLOCK_ON wake handle,
returning the output of the first Ready poll.  The Rust loop is unbounded;
the model takes a fuel bound and returns none when Ready was not reached
within it, so divergence is (for all fuel, the result is none). -/
def block_on {γ σ α : Type} (pf : σ → RawWakerVTable γ → σ × Option α) :
    Nat → σ → Option α
  | 0, _ => none
  | fuel + 1, s =>
    match pf s (BLOCK_ON_VTABLE γ) with
    | (_, some x) => some x
    | (s1, none) => block_on pf fuel s1

/-! ### Helper lemmas for the Notify state machine -/

theorem notify_of_notified (s : Notify) (h : s.state = Notify.NOTIFIED) :
    Notify.notify s = s := by
  cases s with
  | mk st tk sc =>
    simp only [Notify.notify]
    simp only at h
    subst h
    simp [Notify.NOTIFIED, Notify.WAITING]

theorem notify_state (s : Notify) : (Notify.notify s).state = Notify.NOTIFIED := by
  cases s with
  | mk st tk sc =>
    simp only [Notify.notify]
    split
    · cases tk <;> rfl
    · rfl

theorem notifyN_of_notified (k : Nat) (s : Notify) (h : s.state = Notify.NOTIFIED) :
    notifyN k s = s := by
  induction k with
  | zero => rfl
  | succ k ih => rw [notifyN, notify_of_notified s h, ih]

theorem notifyN_fresh (k : Nat) (h : 1 ≤ k) :
    notifyN k Notify.new =
      { state := Notify.NOTIFIED, task := none, sched := [] } := by
  cases k with
  | zero => omega
  | succ k =>
    rw [notifyN]
    have h1 : Notify.notify Notify.new =
        { state := Notify.NOTIFIED, task := none, sched := [] } := by
      simp [Notify.notify, Notify.new, Notify.WAITING, Notify.EMPTY, Notify.NOTIFIED]
    rw [h1, notifyN_of_notified k _ rfl]

theorem notifyN_waiting (k t : Nat) (h : 1 ≤ k) :
    notifyN k { state := Notify.WAITING, task := some t, sched := [] } =
      { state := Notify.NOTIFIED, task := some t, sched := [t] } := by
  cases k with
  | zero => omega
  | succ k =>
    rw [notifyN]
    have h1 : Notify.notify { state := Notify.WAITING, task := some t, sched := [] } =
        { state := Notify.NOTIFIED, task := some t, sched := [t] } := by
      simp [Notify.notify, Notify.WAITING, Notify.NOTIFIED]
    rw [h1, notifyN_of_notified k _ rfl]

/-! ### Helper lemmas for Select -/

theorem select_poll_flags_false {σ τ α β : Type} (pf : σ → σ × Option α)
    (pg : τ → τ × Option β) (s : Select σ τ)
    (h1 : s.polled_first = false) (h2 : s.polled_second = false) :
    Select.poll pf pg s =
      match pf s.first with
      | (s1, some a) => ({ s with first := s1 }, some (Either.First a), [Side.fst])
      | (s1, none) =>
        match pg s.second with
        | (t1, some b) =>
          ({ s with first := s1, second := t1, polled_first := true },
           some (Either.Second b), [Side.fst, Side.snd])
        | (t1, none) =>
          ({ s with first := s1, second := t1 }, none, [Side.fst, Side.snd]) := by
  cases s with
  | mk sf ss p1 p2 =>
    simp only at h1 h2
    subst h1; subst h2
    rcases hp : pf sf with ⟨s1, a⟩
    cases a with
    | some a => simp [Select.poll, hp]
    | none =>
      rcases hq : pg ss with ⟨t1, b⟩
      cases b with
      | some b => simp [Select.poll, Select.pollSnd, hp, hq]
      | none => simp [Select.poll, Select.pollSnd, hp, hq]

theorem select_pending_flags {σ τ α β : Type} (pf : σ → σ × Option α)
    (pg : τ → τ × Option β) (s : Select σ τ)
    (h : (Select.poll pf pg s).2.1 = none) :
    (Select.poll pf pg s).1.polled_first = false
    ∧ (Select.poll pf pg s).1.polled_second = false := by
  cases s with
  | mk sf ss p1 p2 =>
    cases p1 <;> cases p2 <;>
      rcases hp : pf sf with ⟨s1, _ | a⟩ <;>
      rcases hq : pg ss with ⟨t1, _ | b⟩ <;>
      simp_all [Select.poll, Select.pollSnd]

/-! ### Helper lemmas for futStatus and block_on -/

theorem futStatus_succ {σ α : Type} (pf : σ → σ × Option α) (s0 : σ) (m : Nat) :
    futStatus pf s0 (m + 1) =
      match futStatus pf s0 m with
      | Sum.inl s1 =>
        match pf s1 with
        | (s2, none) => Sum.inl s2
        | (_, some a) => Sum.inr a
      | Sum.inr a => Sum.inr a := rfl

theorem futStatus_inr_succ {σ α : Type} (pf : σ → σ × Option α) (s0 : σ) (m : Nat)
    (a : α) (h : futStatus pf s0 m = Sum.inr a) :
    futStatus pf s0 (m + 1) = Sum.inr a := by
  rw [futStatus_succ, h]

theorem futStatus_succ_front {σ α : Type} (pf : σ → σ × Option α) (s0 : σ) (m : Nat) :
    futStatus pf s0 (m + 1) =
      match pf s0 with
      | (_, some a) => Sum.inr a
      | (s1, none) => futStatus pf s1 m := by
  induction m generalizing s0 with
  | zero =>
    rcases hp : pf s0 with ⟨s1, a⟩
    rw [futStatus_succ]
    simp only [futStatus]
    rw [hp]
    cases a <;> rfl
  | succ m ih =>
    rcases hp : pf s0 with ⟨s1, a⟩
    rw [futStatus_succ, ih s0, hp]
    cases a <;> rfl

theorem block_on_eq_futStatus {γ σ α : Type} (pf : σ → RawWakerVTable γ → σ × Option α)
    (fuel : Nat) (s : σ) (x : α) :
    block_on pf fuel s = some x ↔
      futStatus (fun s0 => pf s0 (BLOCK_ON_VTABLE γ)) s fuel = Sum.inr x := by
  induction fuel generalizing s with
  | zero => simp [block_on, futStatus]
  | succ fuel ih =>
    rcases hp : pf s (BLOCK_ON_VTABLE γ) with ⟨s1, a⟩
    rw [block_on, futStatus_succ_front]
    simp only [hp]
    cases a with
    | some a => simp
    | none => exact ih s1

/-! ### Helper lemmas for Join -/

theorem join_poll_trace {σ τ α β : Type} (pf : σ → σ × Option α)
    (pg : τ → τ × Option β) (j : Join σ τ α β) :
    (Join.poll pf pg j).2 =
      (if j.first_done then [] else [Side.fst])
        ++ (if j.second_done then [] else [Side.snd]) := by
  rcases j with ⟨f1, f2, d1, d2, r1, r2⟩
  cases d1 <;> cases d2 <;> cases r1 <;> cases r2 <;>
    rcases hp : pf f1 with ⟨s1, _ | a⟩ <;> rcases hq : pg f2 with ⟨t1, _ | b⟩ <;>
    simp_all [Join.poll]

/-- Relation between one side of a Join after m outer polls and the status of
that side's future polled on its own: either the side is not done, caches
nothing and holds the still-pending future state, or it is done and caches
exactly the future's result. -/
def sideInv {σ α : Type} (pf : σ → σ × Option α) (s0 : σ) (m : Nat)
    (cur : σ) (d : Bool) (r : Option α) : Prop :=
  (d = false ∧ r = none ∧ futStatus pf s0 m = Sum.inl cur)
  ∨ (d = true ∧ ∃ a, r = some a ∧ futStatus pf s0 m = Sum.inr a)

/-- Invariant of joinRun after m outer polls: a still-pending Join satisfies
sideInv on both sides and is not double-done; a completed Join returned
exactly the two futures' own results; and Join.poll never panicked. -/
def joinInv {σ τ α β : Type} (pf : σ → σ × Option α) (pg : τ → τ × Option β)
    (s1 : σ) (s2 : τ) (m : Nat) : Prop :=
  (∀ j : Join σ τ α β, joinRun pf pg (Join.new s1 s2) m = some (Sum.inl j) →
     sideInv pf s1 m j.first j.first_done j.first_result
     ∧ sideInv pg s2 m j.second j.second_done j.second_result
     ∧ ¬(j.first_done = true ∧ j.second_done = true))
  ∧ (∀ (a : α) (b : β), joinRun pf pg (Join.new s1 s2) m = some (Sum.inr (a, b)) →
     futStatus pf s1 m = Sum.inr a ∧ futStatus pg s2 m = Sum.inr b)
  ∧ joinRun pf pg (Join.new s1 s2) m ≠ none

theorem joinInv_of_inr {σ τ α β : Type} (pf : σ → σ × Option α)
    (pg : τ → τ × Option β) (s1 : σ) (s2 : τ) (m : Nat) (a : α) (b : β)
    (hrun : joinRun pf pg (Join.new s1 s2) m = some (Sum.inr (a, b)))
    (hfa : futStatus pf s1 m = Sum.inr a) (hfb : futStatus pg s2 m = Sum.inr b) :
    joinInv pf pg s1 s2 m := by
  refine ⟨fun j hj => absurd hj (by rw [hrun]; simp), fun a' b' hj => ?_,
    by rw [hrun]; simp⟩
  rw [hrun] at hj
  simp only [Option.some.injEq, Sum.inr.injEq, Prod.mk.injEq] at hj
  obtain ⟨rfl, rfl⟩ := hj
  exact ⟨hfa, hfb⟩

theorem joinInv_of_inl {σ τ α β : Type} (pf : σ → σ × Option α)
    (pg : τ → τ × Option β) (s1 : σ) (s2 : τ) (m : Nat) (j0 : Join σ τ α β)
    (hrun : joinRun pf pg (Join.new s1 s2) m = some (Sum.inl j0))
    (h1 : sideInv pf s1 m j0.first j0.first_done j0.first_result)
    (h2 : sideInv pg s2 m j0.second j0.second_done j0.second_result)
    (hnb : ¬(j0.first_done = true ∧ j0.second_done = true)) :
    joinInv pf pg s1 s2 m := by
  refine ⟨fun j hj => ?_, fun a' b' hj => absurd hj (by rw [hrun]; simp),
    by rw [hrun]; simp⟩
  rw [hrun] at hj
  simp only [Option.some.injEq, Sum.inl.injEq] at hj
  subst hj
  exact ⟨h1, h2, hnb⟩

theorem futStatus_step_pending {σ α : Type} (pf : σ → σ × Option α) (s0 cur u : σ)
    (m : Nat) (h : futStatus pf s0 m = Sum.inl cur) (hp : pf cur = (u, none)) :
    futStatus pf s0 (m + 1) = Sum.inl u := by
  rw [futStatus_succ, h]
  simp [hp]

theorem futStatus_step_ready {σ α : Type} (pf : σ → σ × Option α) (s0 cur u : σ)
    (m : Nat) (a : α) (h : futStatus pf s0 m = Sum.inl cur) (hp : pf cur = (u, some a)) :
    futStatus pf s0 (m + 1) = Sum.inr a := by
  rw [futStatus_succ, h]
  simp [hp]

theorem joinRun_inv {σ τ α β : Type} (pf : σ → σ × Option α) (pg : τ → τ × Option β)
    (s1 : σ) (s2 : τ) : ∀ m : Nat, joinInv pf pg s1 s2 m := by
  intro m
  induction m with
  | zero =>
    refine ⟨fun j hj => ?_, fun a b hj => ?_, by simp [joinRun]⟩
    · simp only [joinRun, Option.some.injEq, Sum.inl.injEq] at hj
      subst hj
      exact ⟨Or.inl ⟨rfl, rfl, rfl⟩, Or.inl ⟨rfl, rfl, rfl⟩, by simp [Join.new]⟩
    · simp [joinRun] at hj
  | succ m ih =>
    obtain ⟨ih1, ih2, ih3⟩ := ih
    rcases hR : joinRun pf pg (Join.new s1 s2) m with _ | (j | ⟨a, b⟩)
    · exact absurd hR ih3
    · obtain ⟨inv1, inv2, hnb⟩ := ih1 j hR
      rcases j with ⟨jf, js, d1, d2, r1, r2⟩
      simp only [sideInv] at inv1 inv2
      rcases inv1 with ⟨hd1, hr1, hst1⟩ | ⟨hd1, a0, hr1, hst1⟩
      · rcases inv2 with ⟨hd2, hr2, hst2⟩ | ⟨hd2, b0, hr2, hst2⟩
        · subst hd1; subst hd2; subst hr1; subst hr2
          rcases hp : pf jf with ⟨u, _ | a⟩
          · rcases hq : pg js with ⟨v, _ | b⟩
            · have hrun : joinRun pf pg (Join.new s1 s2) (m + 1) =
                  some (Sum.inl ⟨u, v, false, false, none, none⟩) := by
                rw [joinRun, hR]
                simp [Join.poll, hp, hq]
              exact joinInv_of_inl pf pg s1 s2 (m + 1) _ hrun
                (Or.inl ⟨rfl, rfl, futStatus_step_pending pf s1 jf u m hst1 hp⟩)
                (Or.inl ⟨rfl, rfl, futStatus_step_pending pg s2 js v m hst2 hq⟩)
                (by simp)
            · have hrun : joinRun pf pg (Join.new s1 s2) (m + 1) =
                  some (Sum.inl ⟨u, v, false, true, none, some b⟩) := by
                rw [joinRun, hR]
                simp [Join.poll, hp, hq]
              exact joinInv_of_inl pf pg s1 s2 (m + 1) _ hrun
                (Or.inl ⟨rfl, rfl, futStatus_step_pending pf s1 jf u m hst1 hp⟩)
                (Or.inr ⟨rfl, b, rfl, futStatus_step_ready pg s2 js v m b hst2 hq⟩)
                (by simp)
          · rcases hq : pg js with ⟨v, _ | b⟩
            · have hrun : joinRun pf pg (Join.new s1 s2) (m + 1) =
                  some (Sum.inl ⟨u, v, true, false, some a, none⟩) := by
                rw [joinRun, hR]
                simp [Join.poll, hp, hq]
              exact joinInv_of_inl pf pg s1 s2 (m + 1) _ hrun
                (Or.inr ⟨rfl, a, rfl, futStatus_step_ready pf s1 jf u m a hst1 hp⟩)
                (Or.inl ⟨rfl, rfl, futStatus_step_pending pg s2 js v m hst2 hq⟩)
                (by simp)
            · have hrun : joinRun pf pg (Join.new s1 s2) (m + 1) =
                  some (Sum.inr (a, b)) := by
                rw [joinRun, hR]
                simp [Join.poll, hp, hq]
              exact joinInv_of_inr pf pg s1 s2 (m + 1) a b hrun
                (futStatus_step_ready pf s1 jf u m a hst1 hp)
                (futStatus_step_ready pg s2 js v m b hst2 hq)
        · subst hd1; subst hd2; subst hr1; subst hr2
          rcases hp : pf jf with ⟨u, _ | a⟩
          · have hrun : joinRun pf pg (Join.new s1 s2) (m + 1) =
                some (Sum.inl ⟨u, js, false, true, none, some b0⟩) := by
              rw [joinRun, hR]
              simp [Join.poll, hp]
            exact joinInv_of_inl pf pg s1 s2 (m + 1) _ hrun
              (Or.inl ⟨rfl, rfl, futStatus_step_pending pf s1 jf u m hst1 hp⟩)
              (Or.inr ⟨rfl, b0, rfl, futStatus_inr_succ pg s2 m b0 hst2⟩)
              (by simp)
          · have hrun : joinRun pf pg (Join.new s1 s2) (m + 1) =
                some (Sum.inr (a, b0)) := by
              rw [joinRun, hR]
              simp [Join.poll, hp]
            exact joinInv_of_inr pf pg s1 s2 (m + 1) a b0 hrun
              (futStatus_step_ready pf s1 jf u m a hst1 hp)
              (futStatus_inr_succ pg s2 m b0 hst2)
      · rcases inv2 with ⟨hd2, hr2, hst2⟩ | ⟨hd2, b0, hr2, hst2⟩
        · subst hd1; subst hd2; subst hr1; subst hr2
          rcases hq : pg js with ⟨v, _ | b⟩
          · have hrun : joinRun pf pg (Join.new s1 s2) (m + 1) =
                some (Sum.inl ⟨jf, v, true, false, some a0, none⟩) := by
              rw [joinRun, hR]
              simp [Join.poll, hq]
            exact joinInv_of_inl pf pg s1 s2 (m + 1) _ hrun
              (Or.inr ⟨rfl, a0, rfl, futStatus_inr_succ pf s1 m a0 hst1⟩)
              (Or.inl ⟨rfl, rfl, futStatus_step_pending pg s2 js v m hst2 hq⟩)
              (by simp)
          · have hrun : joinRun pf pg (Join.new s1 s2) (m + 1) =
                some (Sum.inr (a0, b)) := by
              rw [joinRun, hR]
              simp [Join.poll, hq]
            exact joinInv_of_inr pf pg s1 s2 (m + 1) a0 b hrun
              (futStatus_inr_succ pf s1 m a0 hst1)
              (futStatus_step_ready pg s2 js v m b hst2 hq)
        · subst hd1; subst hd2
          exact absurd ⟨rfl, rfl⟩ hnb
    · have h2 := ih2 a b hR
      have hrun : joinRun pf pg (Join.new s1 s2) (m + 1) = some (Sum.inr (a, b)) := by
        rw [joinRun, hR]
      exact joinInv_of_inr pf pg s1 s2 (m + 1) a b hrun
        (futStatus_inr_succ pf s1 m a h2.1) (futStatus_inr_succ pg s2 m b h2.2)

theorem joinRun_inr_iff {σ τ α β : Type} (pf : σ → σ × Option α)
    (pg : τ → τ × Option β) (s1 : σ) (s2 : τ) (m : Nat) (a : α) (b : β) :
    joinRun pf pg (Join.new s1 s2) m = some (Sum.inr (a, b)) ↔
      (futStatus pf s1 m = Sum.inr a ∧ futStatus pg s2 m = Sum.inr b) := by
  obtain ⟨i1, i2, i3⟩ := joinRun_inv pf pg s1 s2 m
  constructor
  · exact fun h => i2 a b h
  · rintro ⟨ha, hb⟩
    rcases hR : joinRun pf pg (Join.new s1 s2) m with _ | (j | ⟨a', b'⟩)
    · exact absurd hR i3
    · obtain ⟨inv1, inv2, hnb⟩ := i1 j hR
      by_cases hd : j.first_done = true
      · have hd2 : j.second_done = false := by
          cases h2 : j.second_done
          · rfl
          · exact absurd ⟨hd, h2⟩ hnb
        rcases inv2 with ⟨_, _, hst2⟩ | ⟨hcontra, _⟩
        · rw [hb] at hst2; exact absurd hst2 (by simp)
        · rw [hd2] at hcontra; exact absurd hcontra (by simp)
      · have hd1 : j.first_done = false := by
          cases h1 : j.first_done
          · rfl
          · exact absurd h1 hd
        rcases inv1 with ⟨_, _, hst1⟩ | ⟨hcontra, _⟩
        · rw [ha] at hst1; exact absurd hst1 (by simp)
        · rw [hd1] at hcontra; exact absurd hcontra (by simp)
    · have h2 := i2 a' b' hR
      rw [h2.1] at ha
      rw [h2.2] at hb
      simp only [Sum.inr.injEq] at ha hb
      rw [ha, hb]

/-! ### Claim theorems -/

/-- Claim C1: for a fresh Notify and every sequential interleaving of one
register(task) call and n >= 1 notify() calls (i of them before the register),
the task is handed to Kind::schedule at most once; when register precedes the
first notify, register returns true and the first notify schedules the task
while every later notify schedules nothing; when any notify precedes register,
no notify schedules anything and register returns false, so no interleaving
loses the wakeup or schedules the task twice. -/
theorem c1_no_lost_wakeup (t i n : Nat) (hn : 1 ≤ n) (hi : i ≤ n) :
    (runInterleaving t i n).1.sched.length ≤ 1
    ∧ (i = 0 →
        (runInterleaving t i n).2 = true
        ∧ (runInterleaving t i n).1.sched = [t]
        ∧ ∀ j, 1 ≤ j → (notifyN j (Notify.register Notify.new t).1).sched = [t])
    ∧ (1 ≤ i →
        (runInterleaving t i n).2 = false
        ∧ (runInterleaving t i n).1.sched = []) := by
  have hreg : Notify.register Notify.new t =
      ({ state := Notify.WAITING, task := some t, sched := [] }, true) := rfl
  rcases Nat.eq_zero_or_pos i with hz | hp
  · subst hz
    have hrun : runInterleaving t 0 n =
        ({ state := Notify.NOTIFIED, task := some t, sched := [t] }, true) := by
      simp only [runInterleaving, notifyN, hreg, Nat.sub_zero]
      rw [notifyN_waiting n t hn]
    refine ⟨by rw [hrun]; simp, fun _ => ⟨by rw [hrun], by rw [hrun], ?_⟩, fun h => by omega⟩
    intro j hj
    rw [hreg, notifyN_waiting j t hj]
  · have h1 : notifyN i Notify.new =
        { state := Notify.NOTIFIED, task := none, sched := [] } := notifyN_fresh i hp
    have h2 : Notify.register { state := Notify.NOTIFIED, task := none, sched := [] } t =
        ({ state := Notify.NOTIFIED, task := some t, sched := [] }, false) := by
      simp [Notify.register, Notify.EMPTY, Notify.NOTIFIED]
    have hrun : runInterleaving t i n =
        ({ state := Notify.NOTIFIED, task := some t, sched := [] }, false) := by
      simp only [runInterleaving, h1, h2]
      rw [notifyN_of_notified (n - i) _ rfl]
    exact ⟨by rw [hrun]; simp, fun h => by omega, fun _ => ⟨by rw [hrun], by rw [hrun]⟩⟩

/-- Witness for C1 evaluated at the interleaving register-then-two-notifies
and at the interleaving two-notifies-then-register of task 7. -/
theorem c1_no_lost_wakeup_witness :
    (runInterleaving 7 0 2).2 = true ∧ (runInterleaving 7 0 2).1.sched = [7]
    ∧ (runInterleaving 7 2 2).2 = false ∧ (runInterleaving 7 2 2).1.sched = [] :=
  ⟨((c1_no_lost_wakeup 7 0 2 (by decide) (by decide)).2.1 rfl).1,
   ((c1_no_lost_wakeup 7 0 2 (by decide) (by decide)).2.1 rfl).2.1,
   ((c1_no_lost_wakeup 7 2 2 (by decide) (by decide)).2.2 (by decide)).1,
   ((c1_no_lost_wakeup 7 2 2 (by decide) (by decide)).2.2 (by decide)).2⟩

/-- Claim C2: register(task) stores the task into the slot, then attempts the
single EMPTY -> WAITING transition; it returns true exactly when the state was
EMPTY (then the new state is WAITING), returns false otherwise leaving the
state unchanged — in particular false when the state is already NOTIFIED —
and it never invokes Kind::schedule. -/
theorem c2_register_spec (s : Notify) (t : Nat) :
    (Notify.register s t).1.task = some t
    ∧ ((Notify.register s t).2 = true ↔ s.state = Notify.EMPTY)
    ∧ ((Notify.register s t).2 = true → (Notify.register s t).1.state = Notify.WAITING)
    ∧ ((Notify.register s t).2 = false → (Notify.register s t).1.state = s.state)
    ∧ (s.state = Notify.NOTIFIED → (Notify.register s t).2 = false)
    ∧ (Notify.register s t).1.sched = s.sched := by
  cases s with
  | mk st tk sc =>
    by_cases h : st = Notify.EMPTY
    · subst h
      simp [Notify.register, Notify.EMPTY, Notify.NOTIFIED]
    · simp [Notify.register, h]

/-- Witness for C2: register on a fresh (EMPTY) Notify succeeds, register on
an already-NOTIFIED Notify fails. -/
theorem c2_register_spec_witness :
    (Notify.register Notify.new 5).2 = true
    ∧ (Notify.register { state := Notify.NOTIFIED, task := none, sched := [] } 5).2 = false :=
  ⟨(c2_register_spec Notify.new 5).2.1.mpr rfl,
   (c2_register_spec { state := Notify.NOTIFIED, task := none, sched := [] } 5).2.2.2.2.1 rfl⟩

/-- Claim C3: notify() on a Notify whose state is already NOTIFIED is a no-op
(state stays NOTIFIED, the slot is untouched, no Kind::schedule call is
logged); consequently every notify after the first changes nothing, so
repeated notifications collapse to at most one schedule in total. -/
theorem c3_notify_noop (s : Notify) (h : s.state = Notify.NOTIFIED) :
    Notify.notify s = s
    ∧ ∀ s0 : Notify, ∀ k : Nat, notifyN k (Notify.notify s0) = Notify.notify s0 :=
  ⟨notify_of_notified s h, fun s0 k => notifyN_of_notified k _ (notify_state s0)⟩

/-- Witness for C3: a second notify on a notified instance that has already
scheduled task 3 changes nothing. -/
theorem c3_notify_noop_witness :
    Notify.notify { state := Notify.NOTIFIED, task := some 3, sched := [3] } =
      { state := Notify.NOTIFIED, task := some 3, sched := [3] } :=
  (c3_notify_noop { state := Notify.NOTIFIED, task := some 3, sched := [3] } rfl).1

/-- Claim C4: execute on a Work (Local or Remote) whose task carries a Call
payload invokes the stored action exactly once on the ambient world and
always returns None (never returned for re-execution). -/
theorem c4_execute_call {γ σ : Type} (pollF : σ → Nat → σ × Bool) (k : Nat)
    (f : γ → γ) (w : γ) :
    Work.execute pollF (Work.Local { key := k, act := some (Act.call f) }) w
      = some (f w, none)
    ∧ Work.execute pollF (Work.Remote { key := k, act := some (Act.call f) }) w
      = some (f w, none) :=
  ⟨rfl, rfl⟩

/-- Claim C5: execute on a Work (Local or Remote) whose task carries a Fut
payload polls the future exactly once against the wake handle minted for the
task's own Key; a Ready poll returns None, a Pending poll returns Some of the
same Work (same domain, same Key, the same future advanced by that one poll),
and the ambient world is untouched (execute does not requeue). -/
theorem c5_execute_fut {γ σ : Type} (pollF : σ → Nat → σ × Bool) (k : Nat)
    (st : σ) (w : γ) :
    Work.execute pollF (Work.Local { key := k, act := some (Act.fut st) }) w
      = some (w, if (pollF st k).2 then none
          else some (Work.Local { key := k, act := some (Act.fut (pollF st k).1) }))
    ∧ Work.execute pollF (Work.Remote { key := k, act := some (Act.fut st) }) w
      = some (w, if (pollF st k).2 then none
          else some (Work.Remote { key := k, act := some (Act.fut (pollF st k).1) })) := by
  constructor <;>
  · simp only [Work.execute]
    split <;> simp_all

/-- Claim C6: each outer poll of Join polls exactly the sides not yet
completed, at most once per side, in fixed left-then-right order (in
particular a completed side is never polled again; its result sits cached in
the Join); and repeated polling returns Ready exactly at those outer-poll
counts m by which both sides, each polled once per outer poll until its own
completion, have completed — yielding the pair of the two sides' own results,
independent of which side completed first. -/
theorem c6_join_correct {σ τ α β : Type} (pf : σ → σ × Option α)
    (pg : τ → τ × Option β) (s1 : σ) (s2 : τ) :
    (∀ j : Join σ τ α β, (Join.poll pf pg j).2 =
       (if j.first_done then [] else [Side.fst])
         ++ (if j.second_done then [] else [Side.snd]))
    ∧ (∀ (m : Nat) (a : α) (b : β),
        joinRun pf pg (Join.new s1 s2) m = some (Sum.inr (a, b)) ↔
          (futStatus pf s1 m = Sum.inr a ∧ futStatus pg s2 m = Sum.inr b)) :=
  ⟨join_poll_trace pf pg, fun m a b => joinRun_inr_iff pf pg s1 s2 m a b⟩

/-- Witness for C6: joining an immediately-ready future yielding 1 with a
future that needs two polls to yield 99 completes with (1, 99) on the second
outer poll, and a poll of a first-side-done Join polls only the second side. -/
theorem c6_join_correct_witness :
    joinRun (fun n : Nat => (n, some 1))
        (fun t : Nat => (t + 1, if t = 1 then some 99 else none))
        (Join.new 0 0) 2 = some (Sum.inr (1, 99))
    ∧ (Join.poll (fun n : Nat => (n, (some 1 : Option Nat)))
        (fun t : Nat => (t + 1, if t = 1 then (some 99 : Option Nat) else none))
        ⟨0, 1, true, false, some 1, none⟩).2 = [Side.snd] :=
  ⟨((c6_join_correct (fun n : Nat => (n, some 1))
      (fun t : Nat => (t + 1, if t = 1 then some 99 else none)) 0 0).2 2 1 99).mpr
    ⟨by decide, by decide⟩,
   (c6_join_correct (fun n : Nat => (n, (some 1 : Option Nat)))
      (fun t : Nat => (t + 1, if t = 1 then (some 99 : Option Nat) else none)) 0 0).1
    ⟨0, 1, true, false, some 1, none⟩⟩

/-- Claim C7: Select is left-biased: an outer poll (entered with both flags
clear) tries the first side and, only when it is Pending, the second, in that
fixed order; the first Ready side wins immediately — a Ready first side yields
First(a) with the second side not polled at all in that poll (so when both
would be ready, the result is First), and a Ready second side after a Pending
first yields Second(b) without polling the first side again. -/
theorem c7_select_left_bias {σ τ α β : Type} (pf : σ → σ × Option α)
    (pg : τ → τ × Option β) (s : Select σ τ)
    (h1 : s.polled_first = false) (h2 : s.polled_second = false) :
    (∀ s1 a, pf s.first = (s1, some a) →
      Select.poll pf pg s =
        ({ s with first := s1 }, some (Either.First a), [Side.fst]))
    ∧ (∀ s1 t1 b, pf s.first = (s1, none) → pg s.second = (t1, some b) →
      Select.poll pf pg s =
        ({ s with first := s1, second := t1, polled_first := true },
         some (Either.Second b), [Side.fst, Side.snd])) := by
  refine ⟨fun s1 a hf => ?_, fun s1 t1 b hf hg => ?_⟩
  · rw [select_poll_flags_false pf pg s h1 h2, hf]
  · rw [select_poll_flags_false pf pg s h1 h2, hf, hg]

/-- Witness for C7 at a first future that is Ready at once (value 4) and a
second future that would also be Ready (value 10): the result is First 4 and
the second side is never polled. -/
theorem c7_select_left_bias_witness :
    Select.poll (fun s : Nat => (s, some s)) (fun t : Nat => (t, some (t + 1)))
        (Select.new 4 9) =
      ({ first := 4, second := 9, polled_first := false, polled_second := false },
       some (Either.First 4), [Side.fst]) :=
  (c7_select_left_bias (fun s : Nat => (s, some s)) (fun t : Nat => (t, some (t + 1)))
    (Select.new 4 9) rfl rfl).1 4 4 rfl

/-- Claim C8: when both sides report Pending within the same outer poll
(entered with both flags clear), both per-side flags are reset to false before
the poll returns Pending, and the next outer poll re-tries both sides from
scratch: it polls the first side unconditionally, and both sides when the
first is again Pending (level-triggered re-polling). -/
theorem c8_select_reset {σ τ α β : Type} (pf : σ → σ × Option α)
    (pg : τ → τ × Option β) (s : Select σ τ) (s1 : σ) (t1 : τ)
    (h1 : s.polled_first = false) (h2 : s.polled_second = false)
    (hf : pf s.first = (s1, none)) (hg : pg s.second = (t1, none)) :
    Select.poll pf pg s =
      ({ s with first := s1, second := t1 }, none, [Side.fst, Side.snd])
    ∧ (Select.poll pf pg s).1.polled_first = false
    ∧ (Select.poll pf pg s).1.polled_second = false
    ∧ ((Select.poll pf pg ((Select.poll pf pg s).1)).2.2).head? = some Side.fst
    ∧ (∀ u1, pf s1 = (u1, none) →
        (Select.poll pf pg ((Select.poll pf pg s).1)).2.2 = [Side.fst, Side.snd]) := by
  have hmain : Select.poll pf pg s =
      ({ s with first := s1, second := t1 }, none, [Side.fst, Side.snd]) := by
    rw [select_poll_flags_false pf pg s h1 h2, hf, hg]
  have hnext : Select.poll pf pg ((Select.poll pf pg s).1) =
      Select.poll pf pg { s with first := s1, second := t1 } := by rw [hmain]
  have hflags : ({ s with first := s1, second := t1 } : Select σ τ).polled_first = false
      ∧ ({ s with first := s1, second := t1 } : Select σ τ).polled_second = false := by
    cases s; simp only at h1 h2; subst h1; subst h2; exact ⟨rfl, rfl⟩
  refine ⟨hmain, by rw [hmain]; exact h1, by rw [hmain]; exact h2, ?_, fun u1 hu => ?_⟩
  · rw [hnext, select_poll_flags_false pf pg _ hflags.1 hflags.2]
    rcases hp : pf s1 with ⟨u1, a⟩
    cases a with
    | some a => rfl
    | none => rcases hq : pg t1 with ⟨v1, b⟩; cases b <;> rfl
  · rw [hnext, select_poll_flags_false pf pg _ hflags.1 hflags.2, hu]
    rcases hq : pg t1 with ⟨v1, b⟩
    cases b <;> rfl

/-- Witness for C8 at two never-ready futures over unit state. -/
theorem c8_select_reset_witness :
    Select.poll (fun s : Unit => (s, (none : Option Nat)))
        (fun t : Unit => (t, (none : Option Nat))) (Select.new () ()) =
      ({ first := (), second := (), polled_first := false, polled_second := false },
       none, [Side.fst, Side.snd]) :=
  (c8_select_reset (fun s : Unit => (s, (none : Option Nat)))
    (fun t : Unit => (t, (none : Option Nat))) (Select.new () ()) () ()
    rfl rfl rfl rfl).1

/-- Claim C10: construction initializes both per-side flags of Select to
false, every Pending-returning poll resets both flags to false before
returning, and whenever a poll is entered with both flags false the flags do
not suppress anything: the first future is polled unconditionally, and the
second future is polled exactly when the first is Pending. -/
theorem c10_select_flags_invariant {σ τ α β : Type} (pf : σ → σ × Option α)
    (pg : τ → τ × Option β) :
    (∀ (s1 : σ) (s2 : τ), (Select.new s1 s2).polled_first = false
      ∧ (Select.new s1 s2).polled_second = false)
    ∧ (∀ s : Select σ τ, (Select.poll pf pg s).2.1 = none →
        (Select.poll pf pg s).1.polled_first = false
        ∧ (Select.poll pf pg s).1.polled_second = false)
    ∧ (∀ s : Select σ τ, s.polled_first = false → s.polled_second = false →
        (Select.poll pf pg s).2.2.head? = some Side.fst
        ∧ ((Select.poll pf pg s).2.2 = [Side.fst, Side.snd] ↔ (pf s.first).2 = none)) := by
  refine ⟨fun s1 s2 => ⟨rfl, rfl⟩, fun s h => select_pending_flags pf pg s h,
    fun s h1 h2 => ?_⟩
  rw [select_poll_flags_false pf pg s h1 h2]
  rcases hp : pf s.first with ⟨s1, a⟩
  cases a with
  | some a => simp
  | none =>
    rcases hq : pg s.second with ⟨t1, b⟩
    cases b <;> simp

/-- Witness for C10: a Pending-returning poll from flags (true, true) — the
degenerate skip-both path — still resets both flags, and a fresh Select has
both flags false. -/
theorem c10_select_flags_invariant_witness :
    ((Select.new 0 0 : Select Nat Nat).polled_first = false
      ∧ (Select.new 0 0 : Select Nat Nat).polled_second = false)
    ∧ ((Select.poll (fun s : Nat => (s, (none : Option Nat)))
          (fun t : Nat => (t, (none : Option Nat))) (Select.new 0 0)).2.2.head?
        = some Side.fst) :=
  ⟨(c10_select_flags_invariant (fun s : Nat => (s, (none : Option Nat)))
      (fun t : Nat => (t, (none : Option Nat)))).1 0 0,
   ((c10_select_flags_invariant (fun s : Nat => (s, (none : Option Nat)))
      (fun t : Nat => (t, (none : Option Nat)))).2.2 (Select.new 0 0) rfl rfl).1⟩

/-- Claim C9: block_on repeatedly polls the future against the inert BLOCK_ON
wake handle, whose wake and wake_by_ref entries do nothing observable; it
returns the output of the first Ready poll, so (with the loop expressed
through a fuel bound) it terminates with a value exactly when some finite
number of polls under that handle yields Ready, and for a future that stays
Pending under this handle forever, no amount of fuel produces a result — the
loop spins forever. -/
theorem c9_block_on {γ σ α : Type} (pf : σ → RawWakerVTable γ → σ × Option α) (s : σ) :
    (∀ w : γ, (BLOCK_ON_VTABLE γ).wake w = w)
    ∧ (∀ w : γ, (BLOCK_ON_VTABLE γ).wake_by_ref w = w)
    ∧ (∀ x : α, (∃ fuel, block_on pf fuel s = some x) ↔
        ∃ m, futStatus (fun s0 => pf s0 (BLOCK_ON_VTABLE γ)) s m = Sum.inr x)
    ∧ ((∀ (m : Nat) (x : α),
          futStatus (fun s0 => pf s0 (BLOCK_ON_VTABLE γ)) s m ≠ Sum.inr x) →
        ∀ fuel, block_on pf fuel s = none) := by
  refine ⟨fun w => rfl, fun w => rfl, fun x => ?_, fun h fuel => ?_⟩
  · constructor
    · rintro ⟨fuel, hb⟩
      exact ⟨fuel, (block_on_eq_futStatus pf fuel s x).mp hb⟩
    · rintro ⟨m, hm⟩
      exact ⟨m, (block_on_eq_futStatus pf m s x).mpr hm⟩
  · rcases hb : block_on pf fuel s with _ | x
    · rfl
    · exact absurd ((block_on_eq_futStatus pf fuel s x).mp hb) (h fuel x)

/-- Witness for C9: the BLOCK_ON wake entries are inert, a future Ready on its
second poll completes with fuel 2, and the always-Pending future yields
nothing at fuel 5. -/
theorem c9_block_on_witness :
    (BLOCK_ON_VTABLE Nat).wake 5 = 5
    ∧ (∃ fuel, block_on
        (fun (n : Nat) (_ : RawWakerVTable Nat) =>
          (n + 1, if n = 1 then some 42 else none)) fuel 0 = some 42)
    ∧ block_on (fun (n : Nat) (_ : RawWakerVTable Nat) => (n, (none : Option Nat))) 5 0
      = none :=
  ⟨(c9_block_on (fun (n : Nat) (_ : RawWakerVTable Nat) =>
      (n + 1, if n = 1 then some 42 else none)) 0).1 5,
   ((c9_block_on (fun (n : Nat) (_ : RawWakerVTable Nat) =>
      (n + 1, if n = 1 then some 42 else none)) 0).2.2.1 42).mpr ⟨2, by decide⟩,
   (c9_block_on (fun (n : Nat) (_ : RawWakerVTable Nat) => (n, (none : Option Nat))) 0).2.2.2
     (fun m x => by
       induction m with
       | zero => simp [futStatus]
       | succ m ih => rw [futStatus_succ_front]; simpa using ih) 5⟩

end FastRt
